import Mathlib

/-
Verification of the libmprompt / libmpeff runtime against its specification.

The definitions below are a shallow embedding of the C sources:
  * `src/src/mprompt/mprompt.c`     — prompts, yields, one-shot and multi-shot resumptions
  * `src/src/mprompt/gstack.c`      — growable stack allocation, caching and freeing
  * `src/src/mprompt/gstack_mmap.c` — commit-on-demand page-fault handling
  * `src/src/mpeff/mpeff.c`         — the effect-handler shell (find, mask, finally, release)

Machine integers are modelled as `Nat`/`Int`; the per-thread prompt chain is a
list of prompt identifiers (innermost first), mirroring the `parent`-linked
list rooted at `_mp_prompt_top`.
-/

/-! ## Prompt chain state (mprompt.c) -/

/-- State of the per-thread prompt machinery of `mprompt.c`.  `chain` is the
current prompt chain, innermost prompt (`_mp_prompt_top`) first.  `susp p =
some cap` models a suspended prompt `p` whose `top` field points at the
innermost prompt of the captured chain `cap` (listed innermost first and
ending with `p` itself); `susp p = none` models `p->top == NULL`.  `dead p`
records prompts whose stack has been freed by `mp_prompt_free`
(mprompt.c:151-164). -/
structure MpState where
  chain : List Nat
  susp : Nat → Option (List Nat)
  dead : Nat → Bool

/-- Walk of the parent-linked chain from the current top down to prompt `p`,
as performed implicitly by `mp_prompt_unlink` (mprompt.c:192-203) when it cuts
the chain: returns the prompts strictly above `p` (the captured part without
`p`) and the part below `p` (the new chain).  `none` when `p` is not in the
chain (the `mp_assert_internal(mp_prompt_is_ancestor(p))` case). -/
def mp_chain_split (p : Nat) : List Nat → Option (List Nat × List Nat)
  | [] => none
  | q :: rest =>
    if q = p then some ([], rest)
    else
      match mp_chain_split p rest with
      | none => none
      | some (front, below) => some (q :: front, below)

/-- Operation `mp_prompt_unlink` (mprompt.c:192-203).  Requires `p` active
(`p->top == NULL`, asserted by `mp_prompt_is_active`) and an ancestor of the
current top.  Sets `p->top := _mp_prompt_top`, `_mp_prompt_top := p->parent`
and `p->parent := NULL`: the chain from the top down to and including `p`
becomes the captured chain of the now-suspended `p`. -/
def mp_prompt_unlink (s : MpState) (p : Nat) : Option MpState :=
  if s.susp p = none then
    match mp_chain_split p s.chain with
    | none => none
    | some (front, below) =>
      some { chain := below
             susp := Function.update s.susp p (some (front ++ [p]))
             dead := s.dead }
  else none

/-- Operation `mp_prompt_link` (mprompt.c:181-190).  Requires `p` suspended
(`mp_assert_internal(!mp_prompt_is_active(p))`).  Sets `p->parent :=
mp_prompt_top()`, `_mp_prompt_top := p->top` and `p->top := NULL`: the whole
captured chain of `p` is placed on top of the current chain. -/
def mp_prompt_link (s : MpState) (p : Nat) : Option MpState :=
  match s.susp p with
  | none => none
  | some cap =>
    some { chain := cap ++ s.chain
           susp := Function.update s.susp p none
           dead := s.dead }

/-- Composite `mp_resume` (mprompt.c:328-333) / `mp_prompt_resume`
(mprompt.c:282-304) acting on a suspended prompt: links the captured chain
back on top of the current chain and writes the argument into the resume
point (`res->result = arg; mp_longjmp(&res->jmp)`), after which the suspended
`mp_yield_internal` call returns `res.result`.  The returned pair is that
value as observed at the yield site together with the machine state at that
moment. -/
def mp_resume_fn (s : MpState) (p : Nat) (arg : Nat) : Option (Nat × MpState) :=
  match mp_prompt_link s p with
  | none => none
  | some s2 => some (arg, s2)

/-- Operation `mp_yield_internal` (mprompt.c:365-384) with kind
`MP_YIELD_ONCE` (`mp_yield`, mprompt.c:387-389): saves the resume point,
unlinks the chain at `p`, stores the yield function and argument in the
return point (`ret->fun := fun; ret->arg := arg`) and long-jumps to the
parent, where `mp_prompt_exec_yield_fun` (mprompt.c:249-279) calls
`yfn resumption ret->arg`.  The result is the value later delivered at the
yield site. -/
def mp_yield_with (s : MpState) (p : Nat)
    (yfn : MpState → Nat → Nat → Option (Nat × MpState)) (arg : Nat) :
    Option (Nat × MpState) :=
  match mp_prompt_unlink s p with
  | none => none
  | some s1 => yfn s1 p arg

/-! ### Chain-splitting lemmas -/

theorem mp_chain_split_append {p : Nat} :
    ∀ {l front below : List Nat},
      mp_chain_split p l = some (front, below) → front ++ p :: below = l := by
  intro l
  induction l with
  | nil => intro front below h; simp [mp_chain_split] at h
  | cons q rest ih =>
    intro front below h
    by_cases hq : q = p
    · simp [mp_chain_split, hq] at h
      simp [← h.1, ← h.2, hq]
    · simp only [mp_chain_split, if_neg hq] at h
      cases hsplit : mp_chain_split p rest with
      | none => rw [hsplit] at h; exact absurd h (by simp)
      | some fb =>
        rw [hsplit] at h
        obtain ⟨front', below'⟩ := fb
        simp at h
        rw [← h.1, ← h.2]
        simpa using ih hsplit

theorem mp_chain_split_isSome {p : Nat} :
    ∀ {l : List Nat}, p ∈ l → (mp_chain_split p l).isSome := by
  intro l
  induction l with
  | nil => intro h; simp at h
  | cons q rest ih =>
    intro h
    by_cases hq : q = p
    · simp [mp_chain_split, hq]
    · have hp : p ∈ rest := by
        rcases List.mem_cons.mp h with h1 | h1
        · exact absurd h1.symm hq
        · exact h1
      have := ih hp
      simp only [mp_chain_split, if_neg hq]
      cases hsplit : mp_chain_split p rest with
      | none => rw [hsplit] at this; simp at this
      | some fb => obtain ⟨f, b⟩ := fb; simp

/-! ### Claim C1: yield with an immediately-resuming yield function -/

/-- Claim C1: a `yield(p, yfn, v)` whose yield function immediately resumes
the resumption with its argument (`yfn(r, a) = resume(r, a)`) delivers
exactly `v` at the yield site, and the prompt chain is restored to its
original state. -/
theorem mp_yield_resume_identity (s : MpState) (p : Nat) (v : Nat)
    (hactive : s.susp p = none) (hmem : p ∈ s.chain) :
    mp_yield_with s p mp_resume_fn v = some (v, s) := by
  have hsome := mp_chain_split_isSome (p := p) hmem
  cases hsplit : mp_chain_split p s.chain with
  | none => rw [hsplit] at hsome; simp at hsome
  | some fb =>
    obtain ⟨front, below⟩ := fb
    have happ := mp_chain_split_append hsplit
    simp only [mp_yield_with, mp_prompt_unlink, if_pos hactive, hsplit]
    simp only [mp_resume_fn, mp_prompt_link, Function.update_same]
    have hsusp : Function.update (Function.update s.susp p (some (front ++ [p]))) p none
        = s.susp := by
      funext q
      by_cases hq : q = p
      · subst hq; simp [Function.update_same, hactive]
      · simp [Function.update_noteq hq]
    have hchain : (front ++ [p]) ++ below = s.chain := by
      simpa using happ
    simp [hsusp, hchain]

/-- Witness for C1 at a concrete state: chain `[1, 2]`, yielding to the
prompt `2` with value `7`. -/
theorem mp_yield_resume_identity_witness :
    mp_yield_with ⟨[1, 2], fun _ => none, fun _ => false⟩ 2 mp_resume_fn 7 =
      some (7, ⟨[1, 2], fun _ => none, fun _ => false⟩) :=
  mp_yield_resume_identity ⟨[1, 2], fun _ => none, fun _ => false⟩ 2 7 rfl (by decide)

/-! ### Claim C4: the prompt state machine and its invariant -/

/-- State Active exactly as claim C4 words it: top link NULL (`p->top ==
NULL`) and part of the current chain. -/
def ClaimActive (s : MpState) (p : Nat) : Prop :=
  s.susp p = none ∧ p ∈ s.chain

/-- State Suspended as claim C4 words it: the top link points at the
captured chain's innermost prompt. -/
def ClaimSuspended (s : MpState) (p : Nat) : Prop :=
  s.susp p ≠ none

/-- State Dead: the prompt record and its stack have been freed. -/
def ClaimDead (s : MpState) (p : Nat) : Prop :=
  s.dead p = true

/-- Fourth state the code actually exhibits (comment at mprompt.c:61: the
prompt children of a suspended prompt "are still in the _active_ state (but
not part of a current execution stack chain)"): top link NULL, not in the
current chain, but a member of some suspended prompt's captured chain. -/
def ClaimCaptured (s : MpState) (p : Nat) : Prop :=
  s.susp p = none ∧ p ∉ s.chain ∧ ∃ q cap, s.susp q = some cap ∧ p ∈ cap

/-- Prompts the runtime still references. -/
def MpLive (s : MpState) (p : Nat) : Prop :=
  p ∈ s.chain ∨ s.susp p ≠ none ∨ (∃ q cap, s.susp q = some cap ∧ p ∈ cap) ∨
    s.dead p = true

/-- Classification of a prompt in exactly one of the four states. -/
def MpStateClassified (s : MpState) (p : Nat) : Prop :=
  (ClaimActive s p ∨ ClaimSuspended s p ∨ ClaimCaptured s p ∨ ClaimDead s p) ∧
  ¬(ClaimActive s p ∧ ClaimSuspended s p) ∧
  ¬(ClaimActive s p ∧ ClaimCaptured s p) ∧
  ¬(ClaimActive s p ∧ ClaimDead s p) ∧
  ¬(ClaimSuspended s p ∧ ClaimCaptured s p) ∧
  ¬(ClaimSuspended s p ∧ ClaimDead s p) ∧
  ¬(ClaimCaptured s p ∧ ClaimDead s p)

/-- Structural invariant of the prompt machinery, from the representation
described at mprompt.c:52-71: the current chain has no duplicates and
consists of active, live prompts; a captured chain ends at its own suspended
prompt, has no duplicates, is disjoint from the current chain and from every
other captured chain, and its proper members have a NULL top link. -/
structure MpInv (s : MpState) : Prop where
  nodup : s.chain.Nodup
  chain_susp : ∀ p ∈ s.chain, s.susp p = none
  chain_alive : ∀ p ∈ s.chain, s.dead p = false
  susp_mem : ∀ p cap, s.susp p = some cap → p ∈ cap
  susp_last : ∀ p cap, s.susp p = some cap → cap.getLast? = some p
  susp_nodup : ∀ p cap, s.susp p = some cap → cap.Nodup
  susp_chain : ∀ p cap, s.susp p = some cap → ∀ q ∈ cap, q ∉ s.chain
  susp_alive : ∀ p cap, s.susp p = some cap → ∀ q ∈ cap, s.dead q = false
  susp_inner : ∀ p cap, s.susp p = some cap → ∀ q ∈ cap, q ≠ p → s.susp q = none
  susp_pair : ∀ p₁ p₂ cap₁ cap₂, p₁ ≠ p₂ → s.susp p₁ = some cap₁ →
    s.susp p₂ = some cap₂ → ∀ q ∈ cap₁, q ∉ cap₂
  dead_susp : ∀ p, s.dead p = true → s.susp p = none

theorem mp_inv_classified {s : MpState} (hinv : MpInv s) (p : Nat)
    (hlive : MpLive s p) : MpStateClassified s p := by
  constructor
  · by_cases hs : s.susp p = none
    · by_cases hc : p ∈ s.chain
      · exact Or.inl ⟨hs, hc⟩
      · rcases hlive with h | h | h | h
        · exact absurd h hc
        · exact absurd hs h
        · exact Or.inr (Or.inr (Or.inl ⟨hs, hc, h⟩))
        · exact Or.inr (Or.inr (Or.inr h))
    · exact Or.inr (Or.inl hs)
  refine ⟨?_, ?_, ?_, ?_, ?_, ?_⟩
  · rintro ⟨⟨h1, _⟩, h2⟩; exact h2 h1
  · rintro ⟨⟨_, h1⟩, _, h2, _⟩; exact h2 h1
  · rintro ⟨⟨_, h1⟩, h2⟩
    simp only [ClaimDead] at h2
    rw [hinv.chain_alive p h1] at h2; exact absurd h2 (by decide)
  · rintro ⟨h1, h2, _, _⟩; exact h1 h2
  · rintro ⟨h1, h2⟩
    exact h1 (hinv.dead_susp p h2)
  · rintro ⟨⟨_, _, q, cap, hq, hpc⟩, h2⟩
    simp only [ClaimDead] at h2
    rw [hinv.susp_alive q cap hq p hpc] at h2; exact absurd h2 (by decide)

theorem mp_prompt_unlink_inv {s s' : MpState} {p : Nat} (hinv : MpInv s)
    (h : mp_prompt_unlink s p = some s') : MpInv s' := by
  by_cases hactive : s.susp p = none
  · simp only [mp_prompt_unlink, if_pos hactive] at h
    cases hsplit : mp_chain_split p s.chain with
    | none => rw [hsplit] at h; exact absurd h (by simp)
    | some fb =>
      obtain ⟨front, below⟩ := fb
      rw [hsplit] at h
      simp only [Option.some.injEq] at h
      have happ := mp_chain_split_append hsplit
      have hchain : s.chain = front ++ p :: below := happ.symm
      have hnd : (front ++ p :: below).Nodup := hchain ▸ hinv.nodup
      have hfront_nd : front.Nodup := (List.nodup_append.mp hnd).1
      have hpb_nd : (p :: below).Nodup := (List.nodup_append.mp hnd).2.1
      have hdisj : front.Disjoint (p :: below) := (List.nodup_append.mp hnd).2.2
      have hp_below : p ∉ below := (List.nodup_cons.mp hpb_nd).1
      have hbelow_nd : below.Nodup := (List.nodup_cons.mp hpb_nd).2
      have hp_front : p ∉ front := fun hmem => hdisj hmem (List.mem_cons_self p below)
      have hmem_front : ∀ q ∈ front, q ∈ s.chain := by
        intro q hq; rw [hchain]; exact List.mem_append_left _ hq
      have hmem_below : ∀ q ∈ below, q ∈ s.chain := by
        intro q hq; rw [hchain]; exact List.mem_append_right _ (List.mem_cons_of_mem _ hq)
      have hp_chain : p ∈ s.chain := by
        rw [hchain]; exact List.mem_append_right _ (List.mem_cons_self _ _)
      have hmem_cap : ∀ q ∈ front ++ [p], q ∈ s.chain := by
        intro q hq
        rcases List.mem_append.mp hq with h1 | h1
        · exact hmem_front q h1
        · rw [List.mem_singleton.mp h1]; exact hp_chain
      subst h
      refine MpInv.mk ?_ ?_ ?_ ?_ ?_ ?_ ?_ ?_ ?_ ?_ ?_
      all_goals dsimp only
      · exact hbelow_nd
      · intro q hq
        have hqp : q ≠ p := fun he => hp_below (he ▸ hq)
        rw [Function.update_noteq hqp]
        exact hinv.chain_susp q (hmem_below q hq)
      · intro q hq
        exact hinv.chain_alive q (hmem_below q hq)
      · intro q cap' hq
        by_cases hqp : q = p
        · subst hqp
          rw [Function.update_same] at hq
          injection hq with hq
          subst hq
          simp
        · rw [Function.update_noteq hqp] at hq
          exact hinv.susp_mem q cap' hq
      · intro q cap' hq
        by_cases hqp : q = p
        · subst hqp
          rw [Function.update_same] at hq
          injection hq with hq
          subst hq
          exact List.getLast?_concat front
        · rw [Function.update_noteq hqp] at hq
          exact hinv.susp_last q cap' hq
      · intro q cap' hq
        by_cases hqp : q = p
        · subst hqp
          rw [Function.update_same] at hq
          injection hq with hq
          subst hq
          refine List.nodup_append.mpr ⟨hfront_nd, List.nodup_singleton _, ?_⟩
          intro r hrf hrp
          rw [List.mem_singleton.mp hrp] at hrf
          exact hp_front hrf
        · rw [Function.update_noteq hqp] at hq
          exact hinv.susp_nodup q cap' hq
      · intro q cap' hq r hr
        by_cases hqp : q = p
        · subst hqp
          rw [Function.update_same] at hq
          injection hq with hq
          subst hq
          intro hrb
          rcases List.mem_append.mp hr with h1 | h1
          · exact hdisj h1 (List.mem_cons_of_mem _ hrb)
          · rw [List.mem_singleton.mp h1] at hrb; exact hp_below hrb
        · rw [Function.update_noteq hqp] at hq
          intro hrb
          exact hinv.susp_chain q cap' hq r hr (hmem_below r hrb)
      · intro q cap' hq r hr
        by_cases hqp : q = p
        · subst hqp
          rw [Function.update_same] at hq
          injection hq with hq
          subst hq
          exact hinv.chain_alive r (hmem_cap r hr)
        · rw [Function.update_noteq hqp] at hq
          exact hinv.susp_alive q cap' hq r hr
      · intro q cap' hq r hr hrq
        by_cases hqp : q = p
        · subst hqp
          rw [Function.update_same] at hq
          injection hq with hq
          subst hq
          have hrf : r ∈ front := by
            rcases List.mem_append.mp hr with h1 | h1
            · exact h1
            · exact absurd (List.mem_singleton.mp h1) hrq
          rw [Function.update_noteq hrq]
          exact hinv.chain_susp r (hmem_front r hrf)
        · rw [Function.update_noteq hqp] at hq
          have h0 := hinv.susp_inner q cap' hq r hr hrq
          have hrp : r ≠ p := by
            intro he
            exact hinv.susp_chain q cap' hq r hr (he ▸ hp_chain)
          rw [Function.update_noteq hrp]
          exact h0
      · intro q₁ q₂ cap₁ cap₂ hne hq₁ hq₂ r hr
        by_cases h1p : q₁ = p
        · subst h1p
          rw [Function.update_same] at hq₁
          injection hq₁ with hq₁
          subst hq₁
          have h2p : q₂ ≠ q₁ := fun he => hne he.symm
          rw [Function.update_noteq h2p] at hq₂
          intro hrc
          exact hinv.susp_chain q₂ cap₂ hq₂ r hrc (hmem_cap r hr)
        · rw [Function.update_noteq h1p] at hq₁
          by_cases h2p : q₂ = p
          · subst h2p
            rw [Function.update_same] at hq₂
            injection hq₂ with hq₂
            subst hq₂
            intro hrc
            exact hinv.susp_chain q₁ cap₁ hq₁ r hr (hmem_cap r hrc)
          · rw [Function.update_noteq h2p] at hq₂
            exact hinv.susp_pair q₁ q₂ cap₁ cap₂ hne hq₁ hq₂ r hr
      · intro q hdq
        have h0 := hinv.dead_susp q hdq
        have hqp : q ≠ p := by
          intro he
          subst he
          rw [hinv.chain_alive q hp_chain] at hdq
          exact absurd hdq (by decide)
        rw [Function.update_noteq hqp]
        exact h0
  · simp [mp_prompt_unlink, hactive] at h

theorem mp_prompt_link_inv {s s' : MpState} {p : Nat} (hinv : MpInv s)
    (h : mp_prompt_link s p = some s') : MpInv s' := by
  cases hsusp : s.susp p with
  | none => simp [mp_prompt_link, hsusp] at h
  | some cap =>
    simp only [mp_prompt_link, hsusp, Option.some.injEq] at h
    have hcap_nd := hinv.susp_nodup p cap hsusp
    have hcap_chain := hinv.susp_chain p cap hsusp
    have hcap_alive := hinv.susp_alive p cap hsusp
    have hp_cap := hinv.susp_mem p cap hsusp
    have hcap_inner := hinv.susp_inner p cap hsusp
    subst h
    refine MpInv.mk ?_ ?_ ?_ ?_ ?_ ?_ ?_ ?_ ?_ ?_ ?_
    all_goals dsimp only
    · refine List.nodup_append.mpr ⟨hcap_nd, hinv.nodup, ?_⟩
      intro a ha hb
      exact hcap_chain a ha hb
    · intro q hq
      by_cases hqp : q = p
      · subst hqp; rw [Function.update_same]
      · rw [Function.update_noteq hqp]
        rcases List.mem_append.mp hq with h1 | h1
        · exact hcap_inner q h1 hqp
        · exact hinv.chain_susp q h1
    · intro q hq
      rcases List.mem_append.mp hq with h1 | h1
      · exact hcap_alive q h1
      · exact hinv.chain_alive q h1
    · intro q c hq
      by_cases hqp : q = p
      · subst hqp; rw [Function.update_same] at hq; exact absurd hq (by simp)
      · rw [Function.update_noteq hqp] at hq; exact hinv.susp_mem q c hq
    · intro q c hq
      by_cases hqp : q = p
      · subst hqp; rw [Function.update_same] at hq; exact absurd hq (by simp)
      · rw [Function.update_noteq hqp] at hq; exact hinv.susp_last q c hq
    · intro q c hq
      by_cases hqp : q = p
      · subst hqp; rw [Function.update_same] at hq; exact absurd hq (by simp)
      · rw [Function.update_noteq hqp] at hq; exact hinv.susp_nodup q c hq
    · intro q c hq r hr
      by_cases hqp : q = p
      · subst hqp; rw [Function.update_same] at hq; exact absurd hq (by simp)
      · rw [Function.update_noteq hqp] at hq
        intro hmem
        rcases List.mem_append.mp hmem with h1 | h1
        · exact hinv.susp_pair q p c cap hqp hq hsusp r hr h1
        · exact hinv.susp_chain q c hq r hr h1
    · intro q c hq r hr
      by_cases hqp : q = p
      · subst hqp; rw [Function.update_same] at hq; exact absurd hq (by simp)
      · rw [Function.update_noteq hqp] at hq; exact hinv.susp_alive q c hq r hr
    · intro q c hq r hr hrq
      by_cases hqp : q = p
      · subst hqp; rw [Function.update_same] at hq; exact absurd hq (by simp)
      · rw [Function.update_noteq hqp] at hq
        have h0 := hinv.susp_inner q c hq r hr hrq
        have hrp : r ≠ p := by
          intro he; rw [he, hsusp] at h0; exact absurd h0 (by simp)
        rw [Function.update_noteq hrp]
        exact h0
    · intro q₁ q₂ c₁ c₂ hne hq₁ hq₂
      by_cases h1p : q₁ = p
      · subst h1p; rw [Function.update_same] at hq₁; exact absurd hq₁ (by simp)
      · by_cases h2p : q₂ = p
        · subst h2p; rw [Function.update_same] at hq₂; exact absurd hq₂ (by simp)
        · rw [Function.update_noteq h1p] at hq₁
          rw [Function.update_noteq h2p] at hq₂
          exact hinv.susp_pair q₁ q₂ c₁ c₂ hne hq₁ hq₂
    · intro q hdq
      have h0 := hinv.dead_susp q hdq
      have hqp : q ≠ p := by
        intro he; rw [he, hsusp] at h0; exact absurd h0 (by simp)
      rw [Function.update_noteq hqp]
      exact h0

/-- Claim C4 (amended): every prompt the runtime still references is in
exactly one of FOUR states — Active, Suspended, Captured (top link NULL but
member of a suspended prompt's captured chain, not part of the current
chain), or Dead — and, while Active, occurs exactly once in the current
chain; the link operation (`mp_prompt_link`, performed on enter and resume)
and the unlink operation (`mp_prompt_unlink`, performed on yield and return)
each preserve this invariant. -/
theorem mp_prompt_state_machine (s s' : MpState) (p : Nat) (hinv : MpInv s)
    (hstep : mp_prompt_unlink s p = some s' ∨ mp_prompt_link s p = some s') :
    MpInv s' ∧ (∀ q, MpLive s' q → MpStateClassified s' q) ∧
      (∀ q, ClaimActive s' q → s'.chain.count q = 1) := by
  have hinv' : MpInv s' := by
    rcases hstep with h | h
    · exact mp_prompt_unlink_inv hinv h
    · exact mp_prompt_link_inv hinv h
  refine ⟨hinv', fun q hq => mp_inv_classified hinv' q hq, ?_⟩
  intro q hq
  exact List.count_eq_one_of_mem hinv'.nodup hq.2

/-- Concrete two-prompt state used for the C4 counterexample and witness:
two nested prompts, `1` innermost. -/
def mpStateEx0 : MpState := ⟨[1, 2], fun _ => none, fun _ => false⟩

/-- Result of unlinking prompt `2` from `mpStateEx0` (a yield to the outer
of the two nested prompts, capturing both). -/
def mpStateEx1 : MpState :=
  ⟨[], Function.update (fun _ => none) 2 (some [1, 2]), fun _ => false⟩

/-- Counterexample to claim C4 as stated: after a perfectly legal unlink (a
yield to the outer of two nested prompts) the inner prompt `1` has a NULL
top link but is in none of the three claimed states Active, Suspended, Dead
— it is captured inside the suspended chain of prompt `2`, exactly the case
the comment at mprompt.c:61 describes. -/
theorem mp_prompt_state_trichotomy_cex :
    mp_prompt_unlink mpStateEx0 2 = some mpStateEx1 ∧
    ¬ ClaimActive mpStateEx1 1 ∧ ¬ ClaimSuspended mpStateEx1 1 ∧
    ¬ ClaimDead mpStateEx1 1 ∧ ClaimCaptured mpStateEx1 1 := by
  refine ⟨rfl, ?_, ?_, ?_, ?_⟩
  · rintro ⟨-, h⟩; simp [mpStateEx1] at h
  · intro h
    exact h (by simp [mpStateEx1, Function.update])
  · intro h; simp [ClaimDead, mpStateEx1] at h
  · refine ⟨?_, by simp [mpStateEx1], 2, [1, 2], ?_, by simp⟩
    · simp [mpStateEx1, Function.update]
    · simp [mpStateEx1, Function.update]

/-! ## Multi-shot resumptions (mprompt.c, `mp_mresume_s`) -/

/-- Record `mp_mresume_s` (mprompt.c:90-96): a heap-allocated, reference
counted multi-shot resumption.  `save` models the lazily created
`mp_prompt_save_t` chain as the snapshot of the suspended state of `prompt`
that it stores (`mp_gstack_save` copies the stack contents, including the
prompt record embedded at the stack base, so restoring it re-establishes the
captured chain); `tail_return_point` is the saved return point of the
original entry (an abstract identifier), or `none` once consumed. -/
structure MResume where
  refcount : Int
  resume_count : Int
  prompt : Nat
  save : Option (List Nat)
  tail_return_point : Option Nat

/-- Function `mp_mresume_should_unwind` (mprompt.c:412-414): literally
`r->refcount == 1 && r->resume_count == 0`. -/
def mp_mresume_should_unwind (r : MResume) : Bool :=
  r.refcount == 1 && r.resume_count == 0

/-- Claim C5: `resume_should_unwind(r)` is true if and only if the reference
count equals 1 and the resume count equals 0, i.e. the resumption is about
to be dropped without ever having been used. -/
theorem mp_mresume_should_unwind_iff (r : MResume) :
    mp_mresume_should_unwind r = true ↔ (r.refcount = 1 ∧ r.resume_count = 0) := by
  simp [mp_mresume_should_unwind]

/-- Function `mp_resume_get_prompt` (mprompt.c:470-481): if a save chain
exists, restore it (`mp_prompt_restore` writes the saved stack bytes — and
with them the embedded prompt records — back in place); if the resumption or
prompt is shared, lazily build the save chain (`mp_prompt_save` copies to the
heap without changing the live prompt state); then take ownership of the
prompt and drop the resumption reference (`mp_mresume_drop`). -/
def mp_resume_get_prompt (s : MpState) (r : MResume) : MpState × MResume × Nat :=
  match r.save with
  | some sv =>
    ({ chain := s.chain, susp := Function.update s.susp r.prompt (some sv),
       dead := s.dead },
     { r with refcount := r.refcount - 1 }, r.prompt)
  | none => (s, { r with refcount := r.refcount - 1 }, r.prompt)

/-- Function `mp_mresume` (mprompt.c:484-488): `r->resume_count++`, fetch
the prompt via `mp_resume_get_prompt`, then `mp_prompt_resume(p, arg)`,
which links the captured chain and delivers `arg` at the yield site
(`res->result = arg`).  The last component is the value observed at the
yield site (`none` when the prompt was not suspended, an invalid state the
C code excludes by assertion). -/
def mp_mresume (s : MpState) (r : MResume) (arg : Nat) :
    MpState × MResume × Option Nat :=
  let r1 := { r with resume_count := r.resume_count + 1 }
  let sr := mp_resume_get_prompt s r1
  match mp_prompt_link sr.1 sr.2.2 with
  | none => (sr.1, sr.2.1, none)
  | some s2 => (s2, sr.2.1, some arg)

/-- Function `mp_mresume_tail` (mprompt.c:493-504): if the saved tail return
point is gone, fall back to a plain `mp_mresume`; otherwise clear it
(`r->tail_return_point = NULL`), bump the resume count, fetch the prompt and
resume through `mp_resume_tail_to` reusing the original entry return point
(which likewise executes `res->result = arg` and long-jumps to the yield
site). -/
def mp_mresume_tail (s : MpState) (r : MResume) (arg : Nat) :
    MpState × MResume × Option Nat :=
  match r.tail_return_point with
  | none => mp_mresume s r arg
  | some _ =>
    let r0 := { r with tail_return_point := none }
    let r1 := { r0 with resume_count := r0.resume_count + 1 }
    let sr := mp_resume_get_prompt s r1
    match mp_prompt_link sr.1 sr.2.2 with
    | none => (sr.1, sr.2.1, none)
    | some s2 => (s2, sr.2.1, some arg)

/-- Claim C9: the saved tail return point is consumed by at most one tail
resume.  A `mp_mresume_tail` call that finds it non-null clears it before
resuming and delivers its argument at the yield site; afterwards the record
carries no tail return point, so every later `mp_mresume_tail` on that
record (e.g. after `resume_dup`) is literally a plain `mp_mresume`, which
still delivers its argument to the yield site. -/
theorem mp_mresume_tail_consumes_once (s : MpState) (r : MResume) (rp : Nat)
    (arg : Nat) (cap : List Nat)
    (htail : r.tail_return_point = some rp) (hsave : r.save = none)
    (hsusp : s.susp r.prompt = some cap) :
    (mp_mresume_tail s r arg).2.1.tail_return_point = none ∧
    (mp_mresume_tail s r arg).2.2 = some arg ∧
    (∀ s₂ b, mp_mresume_tail s₂ (mp_mresume_tail s r arg).2.1 b =
      mp_mresume s₂ (mp_mresume_tail s r arg).2.1 b) ∧
    (∀ s₂ b cap₂, s₂.susp r.prompt = some cap₂ → (mp_mresume_tail s r arg).2.1.save = none →
      (mp_mresume_tail s₂ (mp_mresume_tail s r arg).2.1 b).2.2 = some b) := by
  have hres : mp_mresume_tail s r arg =
      ({ chain := cap ++ s.chain, susp := Function.update s.susp r.prompt none,
         dead := s.dead },
       { refcount := r.refcount - 1, resume_count := r.resume_count + 1,
         prompt := r.prompt, save := none, tail_return_point := none },
       some arg) := by
    simp only [mp_mresume_tail, htail, mp_resume_get_prompt, hsave]
    simp only [mp_prompt_link, hsusp]
  refine ⟨by rw [hres], by rw [hres], ?_, ?_⟩
  · intro s₂ b
    rw [hres]
    rfl
  · intro s₂ b cap₂ hsusp₂ hsave'
    rw [hres]
    simp only [mp_mresume_tail, mp_mresume, mp_resume_get_prompt]
    simp only [mp_prompt_link, hsusp₂]

/-- Witness for C9 at a concrete shared resumption (refcount 2, prompt `5`
suspended with captured chain `[5]`, tail return point `7`). -/
theorem mp_mresume_tail_consumes_once_witness :
    (mp_mresume_tail ⟨[], Function.update (fun _ => none) 5 (some [5]), fun _ => false⟩
        ⟨2, 0, 5, none, some 7⟩ 3).2.1.tail_return_point = none ∧
    (mp_mresume_tail ⟨[], Function.update (fun _ => none) 5 (some [5]), fun _ => false⟩
        ⟨2, 0, 5, none, some 7⟩ 3).2.2 = some 3 :=
  let h := mp_mresume_tail_consumes_once
    ⟨[], Function.update (fun _ => none) 5 (some [5]), fun _ => false⟩
    ⟨2, 0, 5, none, some 7⟩ 7 3 [5] rfl rfl (by simp [Function.update])
  ⟨h.1, h.2.1⟩

/-! ## Effect-handler shell (mpeff.c) -/

/-- Effects of the handler shell.  The three frame tags created by
`MPE_DEFINE_EFFECT0(mpe_frame_under/mask/finally)` (mpeff.c:114-116) are
distinct global constants, different from every client effect. -/
inductive MpeEffect where
  | underTag : MpeEffect
  | maskTag : MpeEffect
  | finallyTag : MpeEffect
  | client : Nat → MpeEffect
deriving DecidableEq

/-- Frames of the handler shadow stack (mpeff.c:74-110): handler frames
(`mpe_frame_handle_t`, with their effect and an identifier standing for the
handler record), under frames (`mpe_frame_under_t`, with the effect to skip
until), mask frames (`mpe_frame_mask_t`, with the masked effect and the
from-level) and finally frames (`mpe_frame_finally_t`). -/
inductive MpeFrame where
  | handle : MpeEffect → Nat → MpeFrame
  | underF : MpeEffect → MpeFrame
  | maskF : MpeEffect → Nat → MpeFrame
  | finallyF : Nat → MpeFrame
deriving DecidableEq

/-- Tag field `frame.effect` of each frame variant (mpeff.c:74-116). -/
def MpeFrame.eff : MpeFrame → MpeEffect
  | .handle e _ => e
  | .underF _ => .underTag
  | .maskF _ _ => .maskTag
  | .finallyF _ => .finallyTag

/-- Field `under` of `mpe_frame_under_t`; the C code reads it only after
checking `f->effect == MPE_EFFECT(mpe_frame_under)` (mpeff.c:374-375), so
the value on other variants is never used. -/
def MpeFrame.underEff : MpeFrame → MpeEffect
  | .underF e => e
  | _ => .underTag

/-- Field `mask` of `mpe_frame_mask_t` (read only under the effect-tag check
at mpeff.c:382-384). -/
def MpeFrame.maskEff : MpeFrame → MpeEffect
  | .maskF e _ => e
  | _ => .maskTag

/-- Field `from` of `mpe_frame_mask_t`. -/
def MpeFrame.maskFrom : MpeFrame → Nat
  | .maskF _ l => l
  | _ => 0

/-- Search loop of `mpe_find` (mpeff.c:358-391).  The `Nat` argument is the
mask counter `mask_level`; the last argument models being inside the
do-while loop of the under branch (mpeff.c:376-378), which skips frames up
to and including the first one whose effect tag equals the under target.  A
frame whose effect equals the operation's effect is the handler when the
mask counter is zero, and decrements the counter otherwise; a matching mask
frame whose from-level is at most the counter increments the counter. -/
def mpe_find_aux (opeff : MpeEffect) :
    List MpeFrame → Nat → Option MpeEffect → Option MpeFrame
  | [], _, _ => none
  | f :: rest, lvl, some ueff =>
    if f.eff = ueff then mpe_find_aux opeff rest lvl none
    else mpe_find_aux opeff rest lvl (some ueff)
  | f :: rest, lvl, none =>
    if f.eff = opeff then
      match lvl with
      | 0 => some f
      | l + 1 => mpe_find_aux opeff rest l none
    else if f.eff = .underTag then
      mpe_find_aux opeff rest lvl (some f.underEff)
    else if f.eff = .maskTag then
      if f.maskEff = opeff ∧ f.maskFrom ≤ lvl then
        mpe_find_aux opeff rest (lvl + 1) none
      else
        mpe_find_aux opeff rest lvl none
    else
      mpe_find_aux opeff rest lvl none

/-- Function `mpe_find` (mpeff.c:358-391): walk the shadow stack from the
top with mask counter zero. -/
def mpe_find (opeff : MpeEffect) (fs : List MpeFrame) : Option MpeFrame :=
  mpe_find_aux opeff fs 0 none

/-- Frame pushed by `mpe_mask` (mpeff.c:548-558): effect tag
`MPE_EFFECT(mpe_frame_mask)`, masked effect `eff`, from-level `from`. -/
def mpe_mask_frame (eff : MpeEffect) (lvlFrom : Nat) : MpeFrame :=
  MpeFrame.maskF eff lvlFrom

/-- Handler frames for effect `eff` in search order. -/
def mpe_handlers (eff : MpeEffect) (fs : List MpeFrame) : List MpeFrame :=
  fs.filter (fun f => f.eff == eff)

theorem mpe_find_no_mask (n : Nat) :
    ∀ (fs : List MpeFrame) (lvl : Nat),
      (∀ f ∈ fs, f.eff ≠ MpeEffect.underTag) →
      (∀ fro, MpeFrame.maskF (MpeEffect.client n) fro ∉ fs) →
      (∀ f ∈ fs, f.eff = MpeEffect.maskTag → ∃ m fro, f = MpeFrame.maskF m fro) →
      mpe_find_aux (MpeEffect.client n) fs lvl none =
        (mpe_handlers (MpeEffect.client n) fs).get? lvl := by
  intro fs
  induction fs with
  | nil => intro lvl h1 h2 h3; simp [mpe_find_aux, mpe_handlers]
  | cons f rest ih =>
    intro lvl h1 h2 h3
    have h1' : ∀ g ∈ rest, g.eff ≠ MpeEffect.underTag :=
      fun g hg => h1 g (List.mem_cons_of_mem _ hg)
    have h2' : ∀ fro, MpeFrame.maskF (MpeEffect.client n) fro ∉ rest :=
      fun fro hmem => h2 fro (List.mem_cons_of_mem _ hmem)
    have h3' : ∀ g ∈ rest, g.eff = MpeEffect.maskTag → ∃ m fro, g = MpeFrame.maskF m fro :=
      fun g hg => h3 g (List.mem_cons_of_mem _ hg)
    by_cases hf : f.eff = MpeEffect.client n
    · cases lvl with
      | zero =>
        simp [mpe_find_aux, hf, mpe_handlers]
      | succ l =>
        have := ih l h1' h2' h3'
        simp only [mpe_find_aux, if_pos hf]
        rw [this]
        simp [mpe_handlers, hf]
    · have hnu : f.eff ≠ MpeEffect.underTag := h1 f (List.mem_cons_self _ _)
      by_cases hm : f.eff = MpeEffect.maskTag
      · obtain ⟨m, fro, rfl⟩ := h3 f (List.mem_cons_self _ _) hm
        have hmn : m ≠ MpeEffect.client n := by
          intro he
          exact h2 fro (by rw [← he]; exact List.mem_cons_self _ _)
        have hcond : ¬((MpeFrame.maskF m fro).maskEff = MpeEffect.client n ∧
            (MpeFrame.maskF m fro).maskFrom ≤ lvl) := by
          rintro ⟨hc, -⟩
          exact hmn hc
        simp only [mpe_find_aux, if_neg hf, if_neg hnu, if_pos hm, if_neg hcond]
        rw [ih lvl h1' h2' h3']
        simp [mpe_handlers, hf]
      · simp only [mpe_find_aux, if_neg hf, if_neg hnu, if_neg hm]
        rw [ih lvl h1' h2' h3']
        simp [mpe_handlers, hf]

/-- Claim C3: `mask(eff, 0, body)` hides exactly one enclosing handler of
`eff`.  In a context with no under frames and no other mask frames for the
same effect, a `perform` under the pushed mask frame finds the second
handler of `eff` (the next outer one beyond the innermost), whereas without
the mask frame it finds the first. -/
theorem mpe_mask_hides_one (n : Nat) (fs : List MpeFrame)
    (h1 : ∀ f ∈ fs, f.eff ≠ MpeEffect.underTag)
    (h2 : ∀ fro, MpeFrame.maskF (MpeEffect.client n) fro ∉ fs)
    (h3 : ∀ f ∈ fs, f.eff = MpeEffect.maskTag → ∃ m fro, f = MpeFrame.maskF m fro) :
    mpe_find (MpeEffect.client n) (mpe_mask_frame (MpeEffect.client n) 0 :: fs) =
      (mpe_handlers (MpeEffect.client n) fs).get? 1 ∧
    mpe_find (MpeEffect.client n) fs =
      (mpe_handlers (MpeEffect.client n) fs).get? 0 := by
  constructor
  · have hstep : mpe_find (MpeEffect.client n)
        (mpe_mask_frame (MpeEffect.client n) 0 :: fs) =
        mpe_find_aux (MpeEffect.client n) fs 1 none := by
      simp [mpe_find, mpe_find_aux, mpe_mask_frame, MpeFrame.eff, MpeFrame.maskEff,
        MpeFrame.maskFrom]
    rw [hstep]
    exact mpe_find_no_mask n fs 1 h1 h2 h3
  · exact mpe_find_no_mask n fs 0 h1 h2 h3

/-- Witness for C3: two nested handlers of the same client effect; with the
mask frame the outer one (`11`) is found, without it the inner one (`10`). -/
theorem mpe_mask_hides_one_witness :
    mpe_find (MpeEffect.client 0)
      (mpe_mask_frame (MpeEffect.client 0) 0 ::
        [MpeFrame.handle (MpeEffect.client 0) 10, MpeFrame.handle (MpeEffect.client 0) 11]) =
      some (MpeFrame.handle (MpeEffect.client 0) 11) ∧
    mpe_find (MpeEffect.client 0)
      [MpeFrame.handle (MpeEffect.client 0) 10, MpeFrame.handle (MpeEffect.client 0) 11] =
      some (MpeFrame.handle (MpeEffect.client 0) 10) := by
  have h := mpe_mask_hides_one 0
    [MpeFrame.handle (MpeEffect.client 0) 10, MpeFrame.handle (MpeEffect.client 0) 11]
    (by decide) (by intro fro hmem; simp at hmem)
    (by intro f hf hm; fin_cases hf <;> simp [MpeFrame.eff] at hm)
  exact ⟨h.1.trans (by decide), h.2.trans (by decide)⟩

/-! ### Claim C2: mpe_finally and the exit paths of its body -/

/-- Operation kinds (`mpe_opkind_t`, mpeff.h) as dispatched by
`mpe_perform_at` (mpeff.c:320-348). -/
inductive MpeOpKind where
  | tailNoop : MpeOpKind
  | tailK : MpeOpKind
  | scopedOnce : MpeOpKind
  | once : MpeOpKind
  | never : MpeOpKind
  | abort : MpeOpKind
  | multi : MpeOpKind
deriving DecidableEq

/-- Control mechanism each operation kind uses to reach its handler. -/
inductive MpeDispatch where
  | inPlace : MpeDispatch
  | inPlaceUnder : MpeDispatch
  | yieldOnce : MpeDispatch
  | yieldMulti : MpeDispatch
  | unwindThrow : MpeDispatch
  | yieldAbort : MpeDispatch
deriving DecidableEq

/-- Dispatch of `mpe_perform_at` (mpeff.c:320-348): TAIL_NOOP runs the op in
place; TAIL runs it in place under an under frame; SCOPED_ONCE and ONCE
yield to the handler's prompt; NEVER calls `mpe_unwind_to` (mpeff.c:195-198)
which throws the C++ unwind exception, unwinding the intervening stack and
running its catch blocks; ABORT calls `mpe_perform_yield_to_abort`
(mpeff.c:297-300), a direct `mp_yield` long-jump past the intervening
frames whose op clause then drops the captured resumption
(`mpe_perform_op_clause_abort`, mpeff.c:291-295) — no unwinding runs; MULTI
yields with a multi-shot resumption. -/
def mpe_perform_dispatch : MpeOpKind → MpeDispatch
  | .tailNoop => .inPlace
  | .tailK => .inPlaceUnder
  | .scopedOnce => .yieldOnce
  | .once => .yieldOnce
  | .never => .unwindThrow
  | .abort => .yieldAbort
  | .multi => .yieldMulti

/-- Ways control can leave the body of an `mpe_finally` frame (C++ build,
`MPE_HAS_TRY`): a normal return; a propagating C++ exception — either a
host exception or the `mpe_unwind_exception` thrown by `mpe_unwind_to`
(mpeff.c:195-198) for an OP_NEVER operation or for a dropped resumption
resumed with the unwind flag (`mpe_resume_unwind`, mpeff.c:491-493, reaching
the check at mpeff.c:284-286) — which runs the intervening catch blocks; or
abandonment: an enclosing OP_ABORT operation long-jumps to its handler and
the captured stack holding the `mpe_finally` activation is freed without any
code on it running (`mp_resume_drop` in `mpe_perform_op_clause_abort`,
mpeff.c:291-295, reaching `mp_prompt_free`, mprompt.c:151-164, which only
frees gstacks). -/
inductive MpeExit where
  | ret : Nat → MpeExit
  | exn : Nat → MpeExit
  | abortDiscard : MpeExit
deriving DecidableEq

/-- Function `mpe_finally` (mpeff.c:566-587) as a function of how its body
exits, returning the number of invocations of the release function
`(f.fun)(f.local)` together with the propagated outcome.  On a normal
return the release function runs once and the result is returned
(mpeff.c:575-578); on a propagating exception the catch-all runs the release
function once and rethrows (mpeff.c:581-584); when the frame is abandoned by
an enclosing OP_ABORT long-jump, no code of `mpe_finally` ever runs again,
so the release function is not called. -/
def mpe_finally_run : MpeExit → Nat × MpeExit
  | .ret v => (1, .ret v)
  | .exn e => (1, .exn e)
  | .abortDiscard => (0, .abortDiscard)

/-- Counterexample to claim C2 as stated: when the body of `finally`
performs an operation of kind ABORT handled outside the `finally` frame, the
dispatch is a plain long-jump yield (no unwinding), the captured stack is
discarded, and the release function runs zero times — not exactly once. -/
theorem mpe_finally_abort_cex :
    mpe_perform_dispatch MpeOpKind.abort = MpeDispatch.yieldAbort ∧
    (mpe_finally_run MpeExit.abortDiscard).1 = 0 ∧ (0 : Nat) ≠ 1 :=
  ⟨rfl, rfl, by decide⟩

/-- Claim C2 (amended): `finally(l, R, B)` invokes `R(l)` exactly once on
every exit path of `B` that leaves the frame by normal return or by C++
unwinding — normal return, a yield that is later resumed (the release then
runs within the resumed execution), an operation of kind NEVER, a dropped
resumption that triggers unwinding, and a propagating host exception — but
an operation of kind ABORT discards the captured stack without running the
release function at all. -/
theorem mpe_finally_release_once (o : MpeExit) (h : o ≠ MpeExit.abortDiscard) :
    (mpe_finally_run o).1 = 1 := by
  cases o with
  | ret v => rfl
  | exn e => rfl
  | abortDiscard => exact absurd rfl h

/-- Witness for the amended C2 at a normally-returning body. -/
theorem mpe_finally_release_once_witness : (mpe_finally_run (MpeExit.ret 4)).1 = 1 :=
  mpe_finally_release_once (MpeExit.ret 4) (by decide)

/-! ### Claim C10: mpe_resume_release with a NULL resumption -/

/-- Resumption kinds of the mpe layer (`mpe_resumption_kind_t`,
mpeff.c:120-125). -/
inductive MpeResumptionKind where
  | inplace : MpeResumptionKind
  | scopedOnce : MpeResumptionKind
  | once : MpeResumptionKind
  | multi : MpeResumptionKind
deriving DecidableEq

/-- Record `mpe_resume_s` (mpeff.c:129-135): the kind together with the
underlying prompt resumption (for kind MULTI the refcounted multi-shot
record). -/
structure MpeResumeRec where
  kind : MpeResumptionKind
  mres : MResume

/-- Observable actions of `mpe_resume_release` (mpeff.c:526-542). -/
inductive MpeReleaseAction where
  | unwindResume : MpeReleaseAction
  | freeRec : MpeReleaseAction
  | dropResume : MpeReleaseAction
deriving DecidableEq

/-- Function `mpe_resume_release` (mpeff.c:526-542) modelled by the list of
actions it performs.  With a NULL resumption (the value an operation of kind
NEVER or ABORT receives) it returns immediately (mpeff.c:527); with kind
ONCE it resumes to unwind (`mpe_resume_unwind`); otherwise (asserted MULTI)
it resumes to unwind when `mp_resume_should_unwind` holds, else frees the
record and drops the prompt resumption. -/
def mpe_resume_release (resume : Option MpeResumeRec) : List MpeReleaseAction :=
  match resume with
  | none => []
  | some r =>
    if r.kind = MpeResumptionKind.once then [MpeReleaseAction.unwindResume]
    else if mp_mresume_should_unwind r.mres then [MpeReleaseAction.unwindResume]
    else [MpeReleaseAction.freeRec, MpeReleaseAction.dropResume]

/-- Claim C10: calling `mpe_resume_release` with a NULL resumption is a safe
no-op — it performs no unwinding, freeing or dropping at all. -/
theorem mpe_resume_release_null : mpe_resume_release none = [] := rfl

/-! ## Growable stacks (gstack.c, gstack_mmap.c) -/

/-- Function `mp_align_down` (util.h:81-83): round down to a multiple of
`d` (identity when `d = 0`). -/
def mp_align_down (x d : Int) : Int :=
  if d = 0 then x else (x / d) * d

/-- Function `mp_unpush` (gstack.c:85-87) for downward-growing stacks
(`os_stack_grows_down`, gstack.c:55): how far pointer `sp` is into the
stack `[stk, stk + stk_size)`, measured from the base (the high end). -/
def mp_unpush (sp stk stk_size : Int) : Int :=
  stk + stk_size - sp

/-- Record `mp_gstack_s` fields used by allocation, caching and freeing
(gstack.c:33-43); sizes are in bytes. -/
structure Gstack where
  gid : Nat
  extra_size : Int
  initial_commit : Int
  committed : Int
deriving DecidableEq

/-- Errno value ENOMEM. -/
def ENOMEM : Nat := 12

/-- Outcome of the OS reservation `mp_gstack_os_alloc`
(gstack_mmap.c:175-203): either a fresh reservation (with its identifier and
the initial commit size), or refusal — `mmap` failed, a diagnostic was
printed (`mp_system_error_message`, gstack_mmap.c:80) and NULL was
returned. -/
inductive OsAllocResult where
  | ok : Nat → Int → OsAllocResult
  | refuse : OsAllocResult
deriving DecidableEq

/-- Cache search of `mp_gstack_alloc` (gstack.c:203-223, release build):
take the first cached gstack whose extra area is large enough, removing it
from the cache. -/
def mp_gstack_cache_take (extra_size : Int) :
    List Gstack → Option (Gstack × List Gstack)
  | [] => none
  | g :: rest =>
    if g.extra_size ≥ extra_size then some (g, rest)
    else
      match mp_gstack_cache_take extra_size rest with
      | none => none
      | some (g', rest') => some (g', g :: rest')

/-- Function `mp_gstack_alloc` (gstack.c:192-269) as a function of the
thread-local cache, the success of the metadata `mp_malloc` (gstack.c:229)
and the OS reservation outcome.  Returns the allocated gstack (`none`
models returning NULL), the remaining cache, and the errno value that was
set: when `mp_gstack_os_alloc` refuses, the metadata is freed, `errno =
ENOMEM` is set and NULL is returned (gstack.c:239-243).  Size alignment of
`extra_size` is elided. -/
def mp_gstack_alloc (extra_size : Int) (cache : List Gstack)
    (mallocOk : Bool) (os : OsAllocResult) :
    Option Gstack × List Gstack × Option Nat :=
  match mp_gstack_cache_take extra_size cache with
  | some (g, rest) => (some g, rest, none)
  | none =>
    if mallocOk then
      match os with
      | .ok gid ic =>
        (some { gid := gid, extra_size := extra_size,
                initial_commit := ic, committed := ic }, cache, none)
      | .refuse => (none, cache, some ENOMEM)
    else (none, cache, none)

/-- Outcome of `mp_prompt_create` (mprompt.c:135-148): either a prompt, or
a process abort via `mp_fatal_message` (util.c:137-148), which prints a
diagnostic, calls any registered error handler and then always calls
`abort()`. -/
inductive PromptCreateResult where
  | ok : Nat → PromptCreateResult
  | fatalAbort : Nat → PromptCreateResult
deriving DecidableEq

/-- Size of the `mp_prompt_t` record reserved at the stack base
(mprompt.c:140); the concrete value is irrelevant to the model. -/
def mp_prompt_size : Int := 48

/-- Function `mp_prompt_create` (mprompt.c:135-148): allocate a fresh
growable stack and embed the prompt record at its base; when the stack
allocation fails it calls `mp_fatal_message(ENOMEM, "unable to allocate a
stack\n")` — it never returns NULL to its caller. -/
def mp_prompt_create (cache : List Gstack) (mallocOk : Bool)
    (os : OsAllocResult) : PromptCreateResult :=
  match (mp_gstack_alloc mp_prompt_size cache mallocOk os).1 with
  | none => PromptCreateResult.fatalAbort ENOMEM
  | some g => PromptCreateResult.ok g.gid

/-- Counterexample to claim C6 as stated: with an empty cache and the OS
refusing the reservation, `mp_prompt_create` aborts the whole process
(`mp_fatal_message`) instead of surfacing a null to its caller. -/
theorem mp_prompt_create_oom_cex :
    mp_prompt_create [] true OsAllocResult.refuse =
      PromptCreateResult.fatalAbort ENOMEM ∧
    PromptCreateResult.fatalAbort ENOMEM ≠ PromptCreateResult.ok 0 := by
  exact ⟨rfl, by decide⟩

/-- Claim C6 (amended): when the OS refuses to reserve memory,
`mp_gstack_alloc` surfaces the failure as a NULL return with `errno` set to
ENOMEM (a diagnostic having been printed by the OS layer), so a caller of
the gstack layer can recover locally; `mp_prompt_create`, however, reacts
to that NULL by printing a diagnostic and aborting the process, so prompt
creation does not surface null. -/
theorem mp_gstack_alloc_oom (extra_size : Int) :
    mp_gstack_alloc extra_size [] true OsAllocResult.refuse =
      (none, [], some ENOMEM) ∧
    mp_prompt_create [] true OsAllocResult.refuse =
      PromptCreateResult.fatalAbort ENOMEM := by
  exact ⟨rfl, rfl⟩

/-! ### Claim C7: freeing a gstack into the per-thread cache -/

/-- Observable actions of `mp_gstack_free` (gstack.c:294-319) and the
OS-level free it may delegate to. -/
inductive GstackFreeAction where
  | memReset : GstackFreeAction
  | osFree : GstackFreeAction
  | freeMeta : GstackFreeAction
deriving DecidableEq

/-- Function `mp_gstack_free` (gstack.c:294-319) over the delayed list, the
cache and its count.  With `delay` the gstack is pushed on the delayed
list; otherwise, when the cache has room (`_mp_gstack_cache_count <
os_gstack_cache_max_count`, gstack.c:307) the gstack is cached **as-is**
(comment at gstack.c:309: "we keep it as-is") — no decommit, no reset, no
canary check; otherwise it is freed to the OS: `mp_gstack_os_free`
(gstack_mmap.c:206-216) resets (`madvise`/decommit) the stack range and
returns the reservation, and the metadata is freed (gstack.c:317-318). -/
def mp_gstack_free (g : Gstack) (delay : Bool)
    (delayed cache : List Gstack) (cacheCount maxCount : Int) :
    List Gstack × List Gstack × Int × List GstackFreeAction :=
  if delay then (g :: delayed, cache, cacheCount, [])
  else if cacheCount < maxCount then
    (delayed, g :: cache, cacheCount + 1, [])
  else
    (delayed, cache, cacheCount,
      [GstackFreeAction.memReset, GstackFreeAction.osFree, GstackFreeAction.freeMeta])

/-- Gstack that has grown past its initial commit (so a canary word at the
initial-commit boundary would have been overwritten). -/
def gstackGrown : Gstack := { gid := 0, extra_size := 0, initial_commit := 4096, committed := 32768 }

/-- Counterexample to claim C7 as stated: caching a freed gstack that has
grown past the initial commit performs no decommit whatsoever (empty action
list) — there is no canary check and no conditional decommit in
`mp_gstack_free`; the stack is kept as-is. -/
theorem mp_gstack_free_cache_cex :
    mp_gstack_free gstackGrown false [] [] 0 4 = ([], [gstackGrown], 1, []) ∧
    gstackGrown.initial_commit < gstackGrown.committed := by
  exact ⟨rfl, by decide⟩

/-- Claim C7 (amended): when a freed gstack is placed in the per-thread
cache it is kept as-is — the decommit step is always skipped, with no canary
involved; pages are reset/decommitted only when the gstack is instead freed
to the OS because the cache is full. -/
theorem mp_gstack_free_cache_as_is (g : Gstack) (delayed cache : List Gstack)
    (cacheCount maxCount : Int) :
    (cacheCount < maxCount →
      mp_gstack_free g false delayed cache cacheCount maxCount =
        (delayed, g :: cache, cacheCount + 1, [])) ∧
    (¬ cacheCount < maxCount →
      mp_gstack_free g false delayed cache cacheCount maxCount =
        (delayed, cache, cacheCount,
          [GstackFreeAction.memReset, GstackFreeAction.osFree,
            GstackFreeAction.freeMeta])) := by
  constructor
  · intro h
    simp [mp_gstack_free, h]
  · intro h
    simp [mp_gstack_free, h]

/-- Witness for the amended C7: an ungrown gstack cached in an empty cache,
and the same gstack freed to the OS when the cache is over capacity. -/
theorem mp_gstack_free_cache_as_is_witness :
    mp_gstack_free ⟨1, 0, 4096, 4096⟩ false [] [] 0 4 =
      ([], [⟨1, 0, 4096, 4096⟩], 1, []) ∧
    mp_gstack_free ⟨1, 0, 4096, 4096⟩ false [] [] 4 4 =
      ([], [], 4,
        [GstackFreeAction.memReset, GstackFreeAction.osFree,
          GstackFreeAction.freeMeta]) :=
  ⟨(mp_gstack_free_cache_as_is ⟨1, 0, 4096, 4096⟩ [] [] 0 4).1 (by decide),
   (mp_gstack_free_cache_as_is ⟨1, 0, 4096, 4096⟩ [] [] 4 4).2 (by decide)⟩

/-! ### Claim C8: commit-on-demand growth arithmetic -/

/-- Used span reported by `mp_gstack_check_access` (gstack.c:396-402) for an
address inside the usable range `[stack, stack + stack_size)`: the distance
from the base (high end) down to the address. -/
def mp_gstack_used (stack stack_size addr : Int) : Int :=
  mp_unpush addr stack stack_size

/-- Available bytes reported by `mp_gstack_check_access` (gstack.c:400):
`stack_size - used`. -/
def mp_gstack_available (stack stack_size addr : Int) : Int :=
  stack_size - mp_gstack_used stack stack_size addr

/-- Extra bytes committed beyond the faulting page by
`mp_mmap_commit_on_demand` (gstack_mmap.c:313-322), given the fast-growth
flag and the stack size and available bytes reported by the access check:
`extra = 0`; with fast growth and a positive used span `extra = 2 * used`
(doubling); clamp to 1 MiB; clamp to the available bytes; align down to a
page multiple. -/
def mp_commit_extra (grow_fast : Bool) (stack_size available page_size : Int) : Int :=
  let used := stack_size - available
  let e1 := if grow_fast = true ∧ 0 < used then 2 * used else 0
  let e2 := if 1048576 < e1 then 1048576 else e1
  let e3 := if available < e2 then available else e2
  mp_align_down e3 page_size

/-- Bytes made accessible by the `mprotect` call of
`mp_mmap_commit_on_demand` (gstack_mmap.c:324-326): the extra bytes plus
the faulting page itself (`mprotect(commit_start, extra + os_page_size,
PROT_READ | PROT_WRITE)`). -/
def mp_commit_size (grow_fast : Bool) (stack_size available page_size : Int) : Int :=
  mp_commit_extra grow_fast stack_size available page_size + page_size

theorem mp_align_down_nonneg {x d : Int} (hx : 0 ≤ x) (hd : 0 ≤ d) :
    0 ≤ mp_align_down x d := by
  unfold mp_align_down
  split_ifs with h
  · exact hx
  · exact mul_nonneg (Int.ediv_nonneg hx hd) hd

/-- Claim C8: on a commit-on-demand fault at page address `page` inside the
usable range of a live gstack, the extra bytes committed beyond the faulting
page equal the currently used span doubled, capped at 1 MiB and at the
remaining available bytes, rounded down to a page multiple; zero extra when
fast growth is disabled; and the faulting page itself is always committed
(the committed byte count is at least one page). -/
theorem mp_commit_on_demand_growth (grow_fast : Bool)
    (stack stack_size page page_size : Int)
    (hpg : 0 < page_size) (hlo : stack ≤ page) (hhi : page < stack + stack_size) :
    (grow_fast = true →
      mp_commit_extra grow_fast stack_size
          (mp_gstack_available stack stack_size page) page_size =
        mp_align_down
          (min (min (2 * mp_gstack_used stack stack_size page) 1048576)
            (mp_gstack_available stack stack_size page)) page_size) ∧
    (grow_fast = false →
      mp_commit_extra grow_fast stack_size
          (mp_gstack_available stack stack_size page) page_size = 0) ∧
    page_size ≤ mp_commit_size grow_fast stack_size
        (mp_gstack_available stack stack_size page) page_size := by
  have hu : 0 < mp_gstack_used stack stack_size page := by
    simp only [mp_gstack_used, mp_unpush]; omega
  have ha : 0 ≤ mp_gstack_available stack stack_size page := by
    simp only [mp_gstack_available, mp_gstack_used, mp_unpush]; omega
  have hused_eq : stack_size - mp_gstack_available stack stack_size page =
      mp_gstack_used stack stack_size page := by
    simp only [mp_gstack_available]; ring
  refine ⟨?_, ?_, ?_⟩
  · intro hgf
    subst hgf
    simp only [mp_commit_extra, hused_eq, true_and]
    congr 1
    rw [if_pos hu]
    split_ifs <;> omega
  · intro hgf
    subst hgf
    simp only [mp_commit_extra, hused_eq]
    have h1 : (if false = true ∧ 0 < mp_gstack_used stack stack_size page then
        2 * mp_gstack_used stack stack_size page else 0) = 0 :=
      if_neg (by rintro ⟨h, -⟩; cases h)
    rw [h1]
    rw [if_neg (show ¬(1048576 : Int) < 0 by omega)]
    rw [if_neg (show ¬mp_gstack_available stack stack_size page < 0 by omega)]
    unfold mp_align_down
    split_ifs
    · rfl
    · simp
  · have hext : 0 ≤ mp_commit_extra grow_fast stack_size
        (mp_gstack_available stack stack_size page) page_size := by
      simp only [mp_commit_extra, hused_eq]
      apply mp_align_down_nonneg ?_ hpg.le
      split_ifs <;> omega
    simp only [mp_commit_size]
    omega

/-- Witness for the amended C4 theorem at the concrete unlink step from
`mpStateEx0` to `mpStateEx1`. -/
theorem mp_prompt_state_machine_witness :
    MpInv mpStateEx1 ∧ MpStateClassified mpStateEx1 2 := by
  have hinv0 : MpInv mpStateEx0 := by
    constructor <;> simp [mpStateEx0]
  have h := mp_prompt_state_machine mpStateEx0 mpStateEx1 2 hinv0 (Or.inl rfl)
  refine ⟨h.1, h.2.1 2 (Or.inr (Or.inl ?_))⟩
  simp [mpStateEx1, Function.update]

/-- Witness for C8 at a concrete fault: stack `[0, 8192)`, faulting page at
`4096`, page size `4096`, fast growth enabled; the used span is `4096`, so
the doubled amount `8192` is capped at the `4096` available bytes. -/
theorem mp_commit_on_demand_growth_witness :
    mp_commit_extra true 8192 (mp_gstack_available 0 8192 4096) 4096 =
      mp_align_down
        (min (min (2 * mp_gstack_used 0 8192 4096) 1048576)
          (mp_gstack_available 0 8192 4096)) 4096 ∧
    (4096 : Int) ≤ mp_commit_size true 8192 (mp_gstack_available 0 8192 4096) 4096 := by
  have h := mp_commit_on_demand_growth true 0 8192 4096 4096
    (by decide) (by decide) (by decide)
  exact ⟨h.1 rfl, h.2.2⟩
